import Mathlib

/-!
Shallow embedding of the core event-ingestion / strategy-evaluation /
position-lifecycle pipeline of the `trading-bot-ts` repository.

Modelling conventions:
* JavaScript `number` values are modelled as exact rationals (`ℚ`);
  timestamps (`Date.now()`, epoch milliseconds, and the microsecond
  timestamps of the subscriber) are modelled as integers (`ℤ`).
* `Map`s keyed by mint strings become association lists
  (`List (String × _)`), `Set`s become `List String` with membership tests;
  insertion order is preserved exactly as in the V8 `Map`/`Set` semantics.
* Mutating methods become functions from state to state; a `throw`
  becomes the `Except.error` branch of an `Except` result.
* JavaScript truthiness on numeric/optional values (`x && …`, `!x`,
  `x || 0`) is modelled explicitly: a value is falsy when it is absent
  (`none`) or equal to `0`.
* Human-readable log/reason strings built by template interpolation
  (e.g. `` `止盈 (+${(pnlRatio*100).toFixed(2)}%)` ``) are replaced by
  their constant prefix; the spec excludes log formatting from the core.
-/

namespace Bot

/-- Truthiness of an optional JS number: falsy when absent or zero. -/
def truthyQ : Option ℚ → Bool
  | none => false
  | some v => v != 0

/-- Position lifecycle status, from `src/types/position.ts`
(`'active' | 'closing' | 'closed'`). -/
inductive PositionStatus
  | active
  | closing
  | closed
deriving DecidableEq, Repr

/-- The `Position` record of `src/types/position.ts` (the untyped
`metadata` bag is elided; no claim touches it). -/
structure Position where
  mint : String
  amount : ℚ
  entryPrice : ℚ
  entryTime : ℤ
  entryTxSignature : String
  status : PositionStatus
  strategy : String
  investedSol : ℚ
  currentValue : Option ℚ := none
  pnlRatio : Option ℚ := none
  lastUpdate : ℤ
deriving DecidableEq, Repr

/-- The `TradeResult` record of `src/types/trading.ts`. -/
structure TradeResult where
  success : Bool
  signature : Option String := none
  error : Option String := none
  executedAmount : Option ℚ := none
  executedPrice : Option ℚ := none
  executedAt : ℤ
  fee : Option ℚ := none
deriving DecidableEq, Repr

/-- The event variants of `src/types/events.ts` that the strategy and the
price-history code discriminate on (`'PumpSwap' in event`,
`'PumpFunTrade' in event`).  All remaining variants (Raydium/Orca swaps,
PumpFunCreate payload details beyond the discriminant) behave uniformly
in the embedded code paths and are collapsed into `otherEvent`. -/
inductive DexEvent
  | pumpSwap (mint pool trader : String) (amount_in amount_out : ℚ) (is_buy : Bool)
  | pumpFunTrade (mint trader : String) (amount_sol amount_token : ℚ) (is_buy : Bool)
  | otherEvent
deriving DecidableEq, Repr

/-- Signal direction (`'buy' | 'sell'`). -/
inductive SignalType
  | buy
  | sell
deriving DecidableEq, Repr

/-- Signal priority (`'low' | 'medium' | 'high'`). -/
inductive SignalPriority
  | low
  | medium
  | high
deriving DecidableEq, Repr

/-- The `params` bag attached to a `TradeSignal`: the strategy attaches
either the triggering source event (buy signals) or the position record
(sell signals). -/
inductive SignalParams
  | sourceEvent (e : DexEvent)
  | positionInfo (p : Position)
deriving DecidableEq, Repr

/-- The `TradeSignal` record of `src/types/trading.ts`. -/
structure TradeSignal where
  type : SignalType
  mint : String
  amount : ℚ
  reason : String
  priority : SignalPriority
  slippageBps : Option ℕ := none
  strategy : Option String := none
  params : Option SignalParams := none
deriving DecidableEq, Repr

/-- `Map.set` on an association list: replace the value at an existing
key in place, otherwise append the new entry (V8 `Map` insertion order). -/
def alistSet (k : String) (v : α) : List (String × α) → List (String × α)
  | [] => [(k, v)]
  | (k', v') :: rest => if k' = k then (k, v) :: rest else (k', v') :: alistSet k v rest

/-- `Map.delete` on an association list. -/
def alistErase (k : String) (l : List (String × α)) : List (String × α) :=
  l.filter (fun p => p.1 != k)

/-- The private state of `PositionManager` (`src/core/position-manager.ts`):
the active-position map, the price map, and the closed-position log. -/
structure PMState where
  positions : List (String × Position) := []
  prices : List (String × ℚ) := []
  closedPositions : List Position := []
deriving DecidableEq, Repr

/-- `PositionManager.openPosition`: unconditionally inserts keyed by mint. -/
def openPosition (s : PMState) (p : Position) : PMState :=
  { s with positions := alistSet p.mint p s.positions }

/-- `PositionManager.closePosition(mint, result)`: throws
`Position not found` when the mint has no active position (before any
mutation); otherwise computes `pnl`/`pnlRatio` from the price map
(`this.prices.get(mint) || 0`), marks the record closed, copies
`result.executedAmount` into `currentValue`, appends it to the
closed-position log and removes it from the active map.  The returned
pair carries the new state and the `pnl` value passed to the
`position:closed` notification. -/
def closePosition (s : PMState) (mint : String) (result : TradeResult) (now : ℤ) :
    Except String (PMState × ℚ) :=
  match List.lookup mint s.positions with
  | none => .error ("Position not found: " ++ mint)
  | some position =>
    let currentPrice : ℚ := (List.lookup mint s.prices).getD 0
    let pnl := (currentPrice - position.entryPrice) * position.amount
    let pnlRatio := (currentPrice - position.entryPrice) / position.entryPrice
    let closed : Position :=
      { position with
          status := .closed
          lastUpdate := now
          currentValue := result.executedAmount
          pnlRatio := some pnlRatio }
    .ok ({ s with
            positions := alistErase mint s.positions
            closedPositions := s.closedPositions ++ [closed] }, pnl)

/-- State observed by a caller of `closePosition` that catches the thrown
domain error (as `TradingBot.executeSignals` does): on the error path the
manager is untouched. -/
def closePositionRun (s : PMState) (mint : String) (result : TradeResult) (now : ℤ) : PMState :=
  match closePosition s mint result now with
  | .ok (s', _) => s'
  | .error _ => s

/-- `PositionManager.updatePrice(mint, price)`: writes the price map and,
when an active position exists for that mint, recomputes
`currentValue = amount × price` and `pnlRatio`, refreshing `lastUpdate`
(via `updatePosition`'s `Object.assign(…, { lastUpdate: Date.now() })`). -/
def updatePrice (s : PMState) (mint : String) (price : ℚ) (now : ℤ) : PMState :=
  let s1 : PMState := { s with prices := alistSet mint price s.prices }
  match List.lookup mint s1.positions with
  | none => s1
  | some position =>
    let currentValue := position.amount * price
    let pnlRatio := (price - position.entryPrice) / position.entryPrice
    { s1 with
        positions := alistSet mint
          { position with
              currentValue := some currentValue
              pnlRatio := some pnlRatio
              lastUpdate := now } s1.positions }

/-- `PositionManager.getPositionCount` (`this.positions.size`). -/
def getPositionCount (s : PMState) : ℕ :=
  s.positions.length

/-- `PositionManager.getTotalInvested`: sum of `investedSol` over the
active positions. -/
def getTotalInvested (s : PMState) : ℚ :=
  (s.positions.map (fun kv => kv.2.investedSol)).sum

/-- `PositionManager.getDailyPnl`, with local midnight passed in as the
`todayTs` timestamp.  A position contributes only when its
`currentValue` is truthy (present and nonzero). -/
def getDailyPnl (s : PMState) (todayTs : ℤ) : ℚ :=
  ((s.positions.map (fun kv =>
      if kv.2.entryTime ≥ todayTs ∧ truthyQ kv.2.currentValue = true then
        kv.2.currentValue.getD 0 - kv.2.investedSol
      else 0)).sum) +
  ((s.closedPositions.map (fun p =>
      if p.lastUpdate ≥ todayTs ∧ truthyQ p.currentValue = true then
        p.currentValue.getD 0 - p.investedSol
      else 0)).sum)

/-- `PositionManager.getWinRate`: `0` on an empty closed-position log,
otherwise the fraction of closed positions whose `currentValue` is truthy
and exceeds `investedSol`. -/
def getWinRate (s : PMState) : ℚ :=
  if s.closedPositions.length = 0 then 0
  else
    ((s.closedPositions.filter (fun p =>
        truthyQ p.currentValue && decide (p.currentValue.getD 0 > p.investedSol))).length : ℚ) /
      (s.closedPositions.length : ℚ)

/-- `PositionManager.getAverageHoldTime`: `0` on an empty log, otherwise
the mean of `lastUpdate - entryTime` over closed positions, in seconds. -/
def getAverageHoldTime (s : PMState) : ℚ :=
  if s.closedPositions.length = 0 then 0
  else
    ((s.closedPositions.map (fun p => ((p.lastUpdate - p.entryTime : ℤ) : ℚ))).sum) /
      (s.closedPositions.length : ℚ) / 1000

/-- The `global` section of `BotConfig` (`src/core/bot.ts`). -/
structure GlobalConfig where
  maxTotalPositions : ℕ
  maxTotalInvestment : ℚ
  emergencyStop : Bool
  dryRun : Bool
deriving DecidableEq, Repr

/-- The `riskManagement` section of `BotConfig`. -/
structure RiskConfig where
  maxDailyLoss : ℚ
  maxConsecutiveLosses : ℕ
  pauseAfterLoss : ℚ
deriving DecidableEq, Repr

/-- `TradingBot.checkRiskLimits(signal)`: the risk gate run before each
signal is executed.  `todayTs` is local midnight (used by
`getDailyPnl`). -/
def checkRiskLimits (g : GlobalConfig) (r : RiskConfig) (s : PMState) (todayTs : ℤ)
    (signal : TradeSignal) : Bool :=
  if g.emergencyStop then false
  else if signal.type = .buy ∧ getPositionCount s ≥ g.maxTotalPositions then false
  else if signal.type = .buy ∧ getTotalInvested s + signal.amount > g.maxTotalInvestment then false
  else if getDailyPnl s todayTs < -r.maxDailyLoss then false
  else true

/-- The shared `StrategyConfig` of `src/core/strategy.ts` (the optional
`description`/`params` bags are elided; no embedded code path reads them). -/
structure StrategyConfig where
  name : String
  enabled : Bool
  maxPositions : ℕ
  maxTradeAmount : ℚ
  minTradeAmount : ℚ
  slippageBps : ℕ
  takeProfitRatio : Option ℚ := none
  stopLossRatio : Option ℚ := none
  minHoldTime : Option ℚ := none
deriving DecidableEq, Repr

/-- `BaseStrategy.checkExitConditions(position)` (`src/core/strategy.ts`),
with the context price lookup passed in as `currentPrice` and the
`Date.now()` reading as `now`.  Faithful to the source order: the
take-profit and stop-loss returns come first; the `minHoldTime` block
sits after them and returns `null` in either of its branches. -/
def baseCheckExitConditions (config : StrategyConfig) (currentPrice : Option ℚ) (now : ℤ)
    (position : Position) : Option TradeSignal :=
  if truthyQ currentPrice = false then none
  else
    let price := currentPrice.getD 0
    let pnlRatio := (price - position.entryPrice) / position.entryPrice
    if truthyQ config.takeProfitRatio = true ∧ pnlRatio ≥ config.takeProfitRatio.getD 0 then
      some { type := .sell, mint := position.mint, amount := -1, reason := "止盈",
             priority := .high, params := some (.positionInfo position) }
    else if truthyQ config.stopLossRatio = true ∧ pnlRatio ≤ config.stopLossRatio.getD 0 then
      some { type := .sell, mint := position.mint, amount := -1, reason := "止损",
             priority := .high, params := some (.positionInfo position) }
    else if truthyQ config.minHoldTime = true
        ∧ ((now - position.entryTime : ℤ) : ℚ) < config.minHoldTime.getD 0 * 1000 then
      none
    else
      none

/-- The strategy-internal `BuyEvent` fact of
`src/strategies/consecutive-buy.ts`. -/
structure BuyEvent where
  mint : String
  amount : ℚ
  timestamp : ℤ
  trader : String
deriving DecidableEq, Repr

/-- `ConsecutiveBuyConfig extends StrategyConfig`. -/
structure ConsecutiveBuyConfig extends StrategyConfig where
  consecutiveBuyCount : ℕ
  totalAmountThreshold : ℚ
  timeWindowSeconds : ℤ
  targetProfitRatio : ℚ
  buyAmountSol : ℚ
deriving DecidableEq, Repr

/-- The mutable state of a `ConsecutiveBuyStrategy` instance: the
per-mint buy-event window map and the bought-mark set. -/
structure ConsecutiveBuyState where
  buyHistory : List (String × List BuyEvent) := []
  boughtTokens : List String := []
deriving DecidableEq, Repr

/-- `Set.add` semantics on the bought-mark set. -/
def setAdd (s : List String) (k : String) : List String :=
  if s.contains k then s else s ++ [k]

/-- `Set.delete` semantics on the bought-mark set. -/
def setErase (s : List String) (k : String) : List String :=
  s.filter (fun x => x != k)

/-- The strategy context values an operation reads (`this.context`
delegates to the position manager) together with the `Date.now()`
reading for that call. -/
structure StrategyEnv where
  hasPosition : String → Bool
  getPrice : String → Option ℚ
  now : ℤ

/-- `ConsecutiveBuyStrategy.extractBuyEvent(event)`: a `BuyEvent` for the
`PumpSwap` / `PumpFunTrade` buy variants (timestamped `Date.now()`),
`null` otherwise. -/
def extractBuyEvent (event : DexEvent) (now : ℤ) : Option BuyEvent :=
  match event with
  | .pumpSwap mint _pool trader amount_in _amount_out buyFlag =>
    if buyFlag then some { mint := mint, amount := amount_in, timestamp := now, trader := trader }
    else none
  | .pumpFunTrade mint trader amount_sol _amount_token buyFlag =>
    if buyFlag then some { mint := mint, amount := amount_sol, timestamp := now, trader := trader }
    else none
  | .otherEvent => none

/-- `ConsecutiveBuyStrategy.recordBuyEvent`: append to the per-mint
window, prune entries at or before `now - timeWindowSeconds×1000`
(strict `timestamp > cutoff` survives), and delete the map entry when the
pruned window is empty. -/
def recordBuyEvent (cfg : ConsecutiveBuyConfig) (st : ConsecutiveBuyState) (b : BuyEvent)
    (now : ℤ) : ConsecutiveBuyState :=
  let history := ((List.lookup b.mint st.buyHistory).getD []) ++ [b]
  let cutoffTime := now - cfg.timeWindowSeconds * 1000
  let filteredHistory := history.filter (fun e => decide (e.timestamp > cutoffTime))
  if filteredHistory.isEmpty then
    { st with buyHistory := alistErase b.mint st.buyHistory }
  else
    { st with buyHistory := alistSet b.mint filteredHistory st.buyHistory }

/-- JavaScript `array.slice(-count)`: the whole array when `count = 0`
(since `-0 === 0`), otherwise the last `count` elements. -/
def jsSliceLast (l : List α) (count : ℕ) : List α :=
  if count = 0 then l else l.drop (l.length - count)

/-- The adjacent-gap loop of `checkConsecutiveBuyCondition`: every
consecutive pair of the sub-sequence is at most `windowMs` apart. -/
def gapsWithin (windowMs : ℤ) : List BuyEvent → Bool
  | [] => true
  | [_] => true
  | a :: b :: rest =>
    decide (b.timestamp - a.timestamp ≤ windowMs) && gapsWithin windowMs (b :: rest)

/-- `ConsecutiveBuyStrategy.checkConsecutiveBuyCondition(mint)`, taking
the map lookup for the mint as its argument. -/
def checkConsecutiveBuyCondition (cfg : ConsecutiveBuyConfig)
    (history? : Option (List BuyEvent)) : Bool :=
  match history? with
  | none => false
  | some history =>
    if history.length < cfg.consecutiveBuyCount then false
    else
      let recentBuys := jsSliceLast history cfg.consecutiveBuyCount
      if gapsWithin (cfg.timeWindowSeconds * 1000) recentBuys = false then false
      else decide ((recentBuys.map (fun b => b.amount)).sum ≥ cfg.totalAmountThreshold)

/-- `ConsecutiveBuyStrategy.analyzeEvent(event)`: record the buy fact,
then emit at most one buy signal — only when the consecutive-buy
condition holds, the mint carries no bought-mark, and the context has no
open position — marking the mint bought in that case.  (The interpolated
reason text is replaced by a constant; the signal carries the source
event in `params` as in the source.) -/
def analyzeEvent (cfg : ConsecutiveBuyConfig) (env : StrategyEnv) (st : ConsecutiveBuyState)
    (event : DexEvent) : List TradeSignal × ConsecutiveBuyState :=
  match extractBuyEvent event env.now with
  | none => ([], st)
  | some buyEvent =>
    let st1 := recordBuyEvent cfg st buyEvent env.now
    if checkConsecutiveBuyCondition cfg (List.lookup buyEvent.mint st1.buyHistory) then
      if st1.boughtTokens.contains buyEvent.mint = false ∧ env.hasPosition buyEvent.mint = false then
        ([{ type := .buy, mint := buyEvent.mint, amount := cfg.buyAmountSol,
            reason := "连续买入", priority := .medium, strategy := some cfg.name,
            params := some (.sourceEvent event) }],
         { st1 with boughtTokens := setAdd st1.boughtTokens buyEvent.mint })
      else ([], st1)
    else ([], st1)

/-- `ConsecutiveBuyStrategy.checkExitConditions(position)`: target-profit
sell (clearing the bought-mark) first, otherwise the inherited base
check, clearing the bought-mark whenever the base check returned a
signal. -/
def stratCheckExitConditions (cfg : ConsecutiveBuyConfig) (env : StrategyEnv)
    (st : ConsecutiveBuyState) (position : Position) :
    Option TradeSignal × ConsecutiveBuyState :=
  let currentPrice := env.getPrice position.mint
  if truthyQ currentPrice = false then (none, st)
  else
    let price := currentPrice.getD 0
    let pnlRatio := (price - position.entryPrice) / position.entryPrice
    if pnlRatio ≥ cfg.targetProfitRatio then
      (some { type := .sell, mint := position.mint, amount := -1, reason := "达到目标涨幅",
              priority := .high, strategy := some cfg.name,
              params := some (.positionInfo position) },
       { st with boughtTokens := setErase st.boughtTokens position.mint })
    else
      match baseCheckExitConditions cfg.toStrategyConfig currentPrice env.now position with
      | some baseSignal =>
        (some baseSignal, { st with boughtTokens := setErase st.boughtTokens position.mint })
      | none => (none, st)

/-- The exit decision of `stratCheckExitConditions` is independent of the
strategy state; this names the signal it would emit. -/
def stratExitSignal (cfg : ConsecutiveBuyConfig) (env : StrategyEnv) (position : Position) :
    Option TradeSignal :=
  (stratCheckExitConditions cfg env {} position).1

/-- `ConsecutiveBuyStrategy.cleanup()`: for each tracked mint, prune its
window by the cutoff; when the pruned window is empty, drop the map entry
and, if the context has no open position for that mint, clear its
bought-mark.  Modelled as a fold over the entry list the iteration
started from. -/
def cleanup (cfg : ConsecutiveBuyConfig) (env : StrategyEnv) (st : ConsecutiveBuyState) :
    ConsecutiveBuyState :=
  let cutoffTime := env.now - cfg.timeWindowSeconds * 1000
  st.buyHistory.foldl
    (fun acc entry =>
      let filteredHistory := entry.2.filter (fun e => decide (e.timestamp > cutoffTime))
      if filteredHistory.isEmpty then
        { acc with
            buyHistory := alistErase entry.1 acc.buyHistory
            boughtTokens :=
              if env.hasPosition entry.1 then acc.boughtTokens
              else setErase acc.boughtTokens entry.1 }
      else { acc with buyHistory := alistSet entry.1 filteredHistory acc.buyHistory })
    st

/-- `ConsecutiveBuyStrategy.destroy()`: clears the window map and the
bought-mark set. -/
def destroyStrategy (_st : ConsecutiveBuyState) : ConsecutiveBuyState :=
  {}

/-- One externally triggered operation on a `ConsecutiveBuyStrategy`
instance, carrying the context/clock values observed during that call. -/
inductive StrategyOp
  | analyze (env : StrategyEnv) (event : DexEvent)
  | checkExit (env : StrategyEnv) (position : Position)
  | doCleanup (env : StrategyEnv)
  | destroy

/-- Apply one operation, returning the signals it emitted. -/
def applyOp (cfg : ConsecutiveBuyConfig) (st : ConsecutiveBuyState) :
    StrategyOp → List TradeSignal × ConsecutiveBuyState
  | .analyze env event => analyzeEvent cfg env st event
  | .checkExit env position =>
    let r := stratCheckExitConditions cfg env st position
    (r.1.toList, r.2)
  | .doCleanup env => ([], cleanup cfg env st)
  | .destroy => ([], destroyStrategy st)

/-- Run a sequence of operations, collecting all emitted signals. -/
def runStrategy (cfg : ConsecutiveBuyConfig) (st : ConsecutiveBuyState) :
    List StrategyOp → ConsecutiveBuyState × List TradeSignal
  | [] => (st, [])
  | op :: rest =>
    let r := applyOp cfg st op
    let rr := runStrategy cfg r.2 rest
    (rr.1, r.1 ++ rr.2)

/-- `TradingBot.updatePriceHistory`, restricted to one mint's series:
push the tick, then `splice(0, length - 1000)` when the series exceeds
1000 entries. -/
def pushPriceCapped (history : List ℚ) (price : ℚ) : List ℚ :=
  let h := history ++ [price]
  if h.length > 1000 then h.drop (h.length - 1000) else h

/-- The per-mint price series after a sequence of recorded ticks. -/
def recordTicks (ticks : List ℚ) : List ℚ :=
  ticks.foldl pushPriceCapped []

/-- The `LatencyInfo` record of `src/types/events.ts` (upstream = gRPC
relay receive time, local = client receive time, both microseconds). -/
structure LatencyInfo where
  grpc_recv_us : ℤ
  client_recv_us : ℤ
  latency_us : ℤ
  latency_ms : ℚ
deriving DecidableEq, Repr

/-- JavaScript `parseFloat(x.toFixed(2))` on the exact rational value of
`x`: round to the nearest hundredth, ties away from zero upward (ECMA
`toFixed` picks the larger candidate when two are equally near). -/
def toFixed2 (q : ℚ) : ℚ :=
  ((⌊q * 100 + 1 / 2⌋ : ℤ) : ℚ) / 100

/-- The latency computation of `EventSubscriber.handleMessage`
(`src/subscriber.ts`), run when `metadata.grpc_recv_us` is present:
clamp `client_recv_us - grpc_recv_us` at zero and report milliseconds to
two decimal places. -/
def computeLatency (clientRecvUs grpcRecvUs : ℤ) : LatencyInfo :=
  let rawLatencyUs := clientRecvUs - grpcRecvUs
  let latencyUs := max 0 rawLatencyUs
  let latencyMs : ℚ := (latencyUs : ℚ) / 1000
  { grpc_recv_us := grpcRecvUs
    client_recv_us := clientRecvUs
    latency_us := latencyUs
    latency_ms := toFixed2 latencyMs }

/-- The raw parsed wire value walked by
`EventSubscriber.convertArraysInObject` (`src/subscriber.ts`).  Numeric
leaves are modelled as integers: the byte-range test of the source only
ever accepts integers, and no other code path inspects the numeric
value. -/
inductive Json
  | num (n : ℤ)
  | str (s : String)
  | bool (b : Bool)
  | null
  | arr (elems : List Json)
  | obj (fields : List (String × Json))

/-- `EventSubscriber.isUint8Array(arr)`: every element is a number `n`
with `(n & 0xFF) === n && n >= 0`, i.e. an integer in `[0, 255]`
(JavaScript `&` first truncates to a 32-bit integer, so any fractional,
negative, or out-of-range number fails the equality). -/
def isUint8ArrayB (elems : List Json) : Bool :=
  elems.all fun j =>
    match j with
    | .num n => decide (0 ≤ n ∧ n ≤ 255)
    | _ => false

/-- The numeric values of a byte array (total on arbitrary lists; under
the `isUint8ArrayB` guard every element is a `num`). -/
def jsonInts (elems : List Json) : List ℤ :=
  elems.filterMap fun j =>
    match j with
    | .num n => some n
    | _ => none

/-- The Bitcoin base-58 alphabet used by `bs58` /
`PublicKey.toBase58`. -/
def base58Alphabet : List Char :=
  "123456789ABCDEFGHJKLMNPQRSTUVWXYZabcdefghijkmnopqrstuvwxyz".toList

/-- Fuel-driven most-significant-first base-58 digit expansion. -/
def base58DigitsAux : ℕ → ℕ → List ℕ
  | 0, _ => []
  | fuel + 1, n => if n = 0 then [] else base58DigitsAux fuel (n / 58) ++ [n % 58]

/-- Base-58 digits of `n`, most significant first (`[]` for `0`); `n`
itself bounds the digit count, so it serves as fuel. -/
def base58Digits (n : ℕ) : List ℕ :=
  base58DigitsAux n n

/-- Big-endian byte list read as a natural number. -/
def bytesToNat (bytes : List ℤ) : ℕ :=
  bytes.foldl (fun acc b => acc * 256 + b.toNat) 0

/-- `bs58.encode` on a byte buffer: one `'1'` per leading zero byte,
then the base-58 digits of the big-endian value. -/
def bs58encode (bytes : List ℤ) : String :=
  let leadingZeros := (bytes.takeWhile (fun b => b == 0)).length
  let digits := base58Digits (bytesToNat bytes)
  String.mk (List.replicate leadingZeros '1' ++
    digits.map (fun d => base58Alphabet.getD d '1'))

/-- `EventSubscriber.pubkeyArrayToString(arr)`:
`new PublicKey(Buffer.from(arr)).toBase58()`, whose constructor throws on
a buffer that is not 32 bytes; the catch branch returns
`arr.join(',')`. -/
def pubkeyArrayToString (arr : List ℤ) : String :=
  if arr.length = 32 then bs58encode arr
  else String.intercalate "," (arr.map toString)

/-- `EventSubscriber.signatureArrayToString(arr)`: `bs58.encode` of the
bytes (it does not throw on any byte buffer). -/
def signatureArrayToString (arr : List ℤ) : String :=
  bs58encode arr

/-- The path predicate guarding signature conversion:
`path.endsWith('.signature') || path === 'signature'`. -/
def isSignaturePath (path : String) : Bool :=
  path.endsWith ".signature" || path == "signature"

/-- Child path for an object field: `path ? path + '.' + key : key`. -/
def childFieldPath (path key : String) : String :=
  if path = "" then key else path ++ "." ++ key

/-- Child path for an array element: `path + '[' + idx + ']'` (the
brace-free index syntax of the source template literal). -/
def childIndexPath (path : String) (idx : ℕ) : String :=
  path ++ "[" ++ toString idx ++ "]"

mutual

/-- `EventSubscriber.convertArraysInObject(obj, path)`: a 32-element
byte array becomes a base-58 public-key string anywhere; a 64-element
byte array becomes a base-58 signature string on a `signature` path;
other arrays recurse element-wise with indexed paths, plain objects
recurse field-wise with dotted paths, and every other value is returned
unchanged. -/
def convertArraysInObject : Json → String → Json
  | .arr elems, path =>
    if elems.length = 32 ∧ isUint8ArrayB elems = true then
      .str (pubkeyArrayToString (jsonInts elems))
    else if elems.length = 64 ∧ isUint8ArrayB elems = true ∧ isSignaturePath path = true then
      .str (signatureArrayToString (jsonInts elems))
    else
      .arr (convertElems elems path 0)
  | .obj fields, path => .obj (convertFields fields path)
  | j, _ => j

/-- The `obj.map((item, idx) => …)` recursion over array elements. -/
def convertElems : List Json → String → ℕ → List Json
  | [], _, _ => []
  | x :: xs, path, idx =>
    convertArraysInObject x (childIndexPath path idx) :: convertElems xs path (idx + 1)

/-- The `Object.keys` recursion over object fields. -/
def convertFields : List (String × Json) → String → List (String × Json)
  | [], _ => []
  | kv :: rest, path =>
    (kv.1, convertArraysInObject kv.2 (childFieldPath path kv.1)) :: convertFields rest path

end

/-! Claim-side definition used to compare `getWinRate` against the
specified fraction, plus concrete instances used to instantiate the
theorems below on explicit inputs. -/

/-- Win-rate as the claim words it: the count of closed positions with
`currentValue` present and strictly greater than `investedSol`, divided
by the number of closed positions (`0` when the log is empty). -/
def claimWinRate (s : PMState) : ℚ :=
  if s.closedPositions.length = 0 then 0
  else
    ((s.closedPositions.countP (fun p =>
        p.currentValue.isSome && decide (p.currentValue.getD 0 > p.investedSol))) : ℚ) /
      (s.closedPositions.length : ℚ)

/-- A strategy configuration with a 50% take-profit and a 60-second
minimum hold time. -/
def cfgHold : StrategyConfig :=
  { name := "ConsecutiveBuy", enabled := true, maxPositions := 5, maxTradeAmount := 1/10,
    minTradeAmount := 1/100, slippageBps := 500, takeProfitRatio := some (1/2),
    stopLossRatio := none, minHoldTime := some 60 }

/-- A position on mint `M` entered at price 1 at time 0 with 10 tokens
for 0.01 SOL. -/
def posM : Position :=
  { mint := "M", amount := 10, entryPrice := 1, entryTime := 0, entryTxSignature := "",
    status := .active, strategy := "ConsecutiveBuy", investedSol := 1/100, lastUpdate := 0 }

/-- The default-valued consecutive-buy configuration with a 3-second
window (`createConsecutiveBuyConfig` with `timeWindowSeconds := 3`). -/
def cfgConsec : ConsecutiveBuyConfig :=
  { name := "ConsecutiveBuy", enabled := true, maxPositions := 5, maxTradeAmount := 1/10,
    minTradeAmount := 1/100, slippageBps := 500, takeProfitRatio := some (1/10),
    stopLossRatio := some (-(1/20)), minHoldTime := some 10,
    consecutiveBuyCount := 3, totalAmountThreshold := 5, timeWindowSeconds := 3,
    targetProfitRatio := 1/10, buyAmountSol := 1/100 }

/-- Buy events on mint `M` at t = 0 s, 1 s and 10 s, 2 SOL each. -/
def gappedBuys : List BuyEvent :=
  [{ mint := "M", amount := 2, timestamp := 0, trader := "T" },
   { mint := "M", amount := 2, timestamp := 1000, trader := "T" },
   { mint := "M", amount := 2, timestamp := 10000, trader := "T" }]

/-- Manager state after opening `posM` and recording a price tick at
`1.1 × entryPrice` (time 100). -/
def preCloseState : PMState :=
  updatePrice (openPosition {} posM) "M" (11/10) 100

/-- A successful trade result whose executed amount (999) differs from
the marked-to-market position value. -/
def resultOff : TradeResult :=
  { success := true, executedAmount := some 999, executedAt := 200 }

/-- A closed-position log entry whose `currentValue` is present but zero
while `investedSol` is negative. -/
def zeroValuePos : Position :=
  { posM with status := .closed, currentValue := some 0, investedSol := -1 }

/-- A one-entry closed-position log around `zeroValuePos`. -/
def zeroValueState : PMState :=
  { closedPositions := [zeroValuePos] }

/-- A two-entry closed log: one winner (value 2 over 1 invested), one
with no recorded value. -/
def mixedClosedState : PMState :=
  { closedPositions :=
      [{ posM with status := .closed, currentValue := some 2, investedSol := 1 },
       { posM with status := .closed, currentValue := none }] }

/-- Global risk envelope: 2 positions, 2 SOL cap, no emergency stop. -/
def gateGlobal : GlobalConfig :=
  { maxTotalPositions := 2, maxTotalInvestment := 2, emergencyStop := false, dryRun := false }

/-- Risk-management settings with a 1-SOL daily-loss cap. -/
def gateRisk : RiskConfig :=
  { maxDailyLoss := 1, maxConsecutiveLosses := 3, pauseAfterLoss := 60 }

/-- Manager state holding one open position with 1 SOL invested. -/
def gateState : PMState :=
  { positions := [("A", { posM with mint := "A", investedSol := 1 })] }

/-- A buy signal for exactly the remaining 1 SOL of headroom. -/
def buyAtCap : TradeSignal :=
  { type := .buy, mint := "B", amount := 1, reason := "连续买入", priority := .medium }

/-- A buy signal one hundredth over the remaining headroom. -/
def buyOverCap : TradeSignal :=
  { type := .buy, mint := "B", amount := 101/100, reason := "连续买入", priority := .medium }

/-- A strategy state carrying a bought-mark for mint `M`. -/
def markedState : ConsecutiveBuyState :=
  { buyHistory := [], boughtTokens := ["M"] }

/-- A context in which every mint has an open position and no price. -/
def envOpenM : StrategyEnv :=
  { hasPosition := fun _ => true, getPrice := fun _ => none, now := 0 }

/-- A PumpFun buy event on the marked mint `M`. -/
def buyEventM : DexEvent :=
  .pumpFunTrade "M" "T" 10 1 true

/-- One `analyzeEvent` call on mint `M` under `envOpenM`. -/
def opsAnalyzeM : List StrategyOp :=
  [.analyze envOpenM buyEventM]

/-- The position for `mint` is open in the context a strategy operation
observes (teardown is excluded: `destroy` never runs while the claim's
guard holds). -/
def opOpenFor (mint : String) : StrategyOp → Prop
  | .analyze env _ => env.hasPosition mint = true
  | .checkExit env _ => env.hasPosition mint = true
  | .doCleanup env => env.hasPosition mint = true
  | .destroy => False

/-- No exit-check in the trace decides to emit a sell for `mint` (the
exit decision depends only on the observed price/position, not on the
strategy state). -/
def opNoExitFor (cfg : ConsecutiveBuyConfig) (mint : String) : StrategyOp → Prop
  | .checkExit env position => position.mint = mint → stratExitSignal cfg env position = none
  | _ => True

/-! Theorems. -/

theorem pushPriceCapped_length_le (h : List ℚ) (p : ℚ) :
    (pushPriceCapped h p).length ≤ 1000 := by
  unfold pushPriceCapped
  by_cases hc : (h ++ [p]).length > 1000
  · simp only [if_pos hc, List.length_drop]
    omega
  · simp only [if_neg hc]
    omega

theorem pushPriceCapped_suffix (h : List ℚ) (p : ℚ) (l : List ℚ) (hs : h.IsSuffix l) :
    (pushPriceCapped h p).IsSuffix (l ++ [p]) := by
  obtain ⟨t, rfl⟩ := hs
  have happ : (h ++ [p]).IsSuffix (t ++ h ++ [p]) := ⟨t, (List.append_assoc _ _ _).symm⟩
  unfold pushPriceCapped
  by_cases hc : (h ++ [p]).length > 1000
  · simp only [if_pos hc]
    exact (List.drop_suffix _ _).trans happ
  · simp only [if_neg hc]
    exact happ

/-- C8: after every recorded tick the retained per-mint price history has
length at most 1000, and the retained sequence is a suffix of the full
tick sequence (oldest entries are the ones dropped). -/
theorem recordTicks_bounded_and_suffix (ticks : List ℚ) :
    (recordTicks ticks).length ≤ 1000 ∧ (recordTicks ticks).IsSuffix ticks := by
  induction ticks using List.reverseRecOn with
  | nil => exact ⟨by simp [recordTicks], List.nil_suffix⟩
  | append_singleton ts p ih =>
    have heq : recordTicks (ts ++ [p]) = pushPriceCapped (recordTicks ts) p := by
      simp [recordTicks, List.foldl_append]
    rw [heq]
    exact ⟨pushPriceCapped_length_le _ _, pushPriceCapped_suffix _ _ _ ih.2⟩

theorem toFixed2_near (q : ℚ) : |toFixed2 q - q| ≤ 1 / 200 := by
  have h1 : ((⌊q * 100 + 1 / 2⌋ : ℤ) : ℚ) ≤ q * 100 + 1 / 2 := Int.floor_le _
  have h2 : q * 100 + 1 / 2 - 1 < ((⌊q * 100 + 1 / 2⌋ : ℤ) : ℚ) := Int.sub_one_lt_floor _
  rw [toFixed2, abs_le]
  constructor <;> linarith

/-- C7: the computed latency equals `max(0, client_recv_us -
grpc_recv_us)`, hence is never negative even under clock skew, and
`latency_ms` is a whole number of hundredths of a millisecond within
half a hundredth of the exact microsecond latency divided by 1000. -/
theorem computeLatency_spec (clientRecvUs grpcRecvUs : ℤ) :
    (computeLatency clientRecvUs grpcRecvUs).latency_us = max 0 (clientRecvUs - grpcRecvUs) ∧
    0 ≤ (computeLatency clientRecvUs grpcRecvUs).latency_us ∧
    (∃ n : ℤ, (computeLatency clientRecvUs grpcRecvUs).latency_ms = (n : ℚ) / 100) ∧
    |(computeLatency clientRecvUs grpcRecvUs).latency_ms -
        ((computeLatency clientRecvUs grpcRecvUs).latency_us : ℚ) / 1000| ≤ 1 / 200 := by
  refine ⟨rfl, le_max_left _ _, ⟨⌊((max 0 (clientRecvUs - grpcRecvUs) : ℤ) : ℚ) / 1000 * 100 + 1 / 2⌋, rfl⟩, ?_⟩
  exact toFixed2_near _

/-- C6: closing a mint with no active position yields the typed
`Position not found` failure, and a caller that catches it observes the
manager state (active map, closed log, price map) exactly as before. -/
theorem closePosition_notFound (s : PMState) (mint : String) (result : TradeResult) (now : ℤ)
    (h : List.lookup mint s.positions = none) :
    closePosition s mint result now = .error ("Position not found: " ++ mint) ∧
    closePositionRun s mint result now = s := by
  refine ⟨?_, ?_⟩
  · simp [closePosition, h]
  · simp [closePositionRun, closePosition, h]

theorem closePosition_notFound_witness :
    List.lookup "X" (PMState.positions {}) = none ∧
    closePosition {} "X" { success := false, executedAt := 0 } 0 =
      .error "Position not found: X" ∧
    closePositionRun {} "X" { success := false, executedAt := 0 } 0 = {} := by
  refine ⟨rfl, ?_, ?_⟩
  · exact (closePosition_notFound {} "X" { success := false, executedAt := 0 } 0 rfl).1
  · exact (closePosition_notFound {} "X" { success := false, executedAt := 0 } 0 rfl).2

/-- C1: evaluated at a position held for 1 second under a configured
60-second `minHoldTime` with the take-profit threshold met, the base
exit check emits the take-profit sell signal: the `minHoldTime` block
sits after the take-profit/stop-loss returns (both of its branches
return `null`), so the hold-time floor never suppresses an exit. -/
theorem exit_fires_below_minHoldTime :
    truthyQ cfgHold.minHoldTime = true ∧
    (((1000 : ℤ) - posM.entryTime : ℤ) : ℚ) < cfgHold.minHoldTime.getD 0 * 1000 ∧
    baseCheckExitConditions cfgHold (some 2) 1000 posM =
      some { type := .sell, mint := "M", amount := -1, reason := "止盈", priority := .high,
             params := some (.positionInfo posM) } := by
  refine ⟨rfl, by norm_num [posM, cfgHold], ?_⟩
  norm_num [baseCheckExitConditions, cfgHold, posM, truthyQ]

/-- C4: for a buy signal the risk gate accepts exactly when the
emergency stop is off, the active position count is strictly below
`maxTotalPositions`, `totalInvested + signal.amount` is at most
`maxTotalInvestment` (equality accepted), and daily PnL is at least
`-maxDailyLoss`. -/
theorem checkRiskLimits_buy_iff (g : GlobalConfig) (r : RiskConfig) (s : PMState) (todayTs : ℤ)
    (signal : TradeSignal) (hbuy : signal.type = SignalType.buy) :
    checkRiskLimits g r s todayTs signal = true ↔
      (g.emergencyStop = false ∧ getPositionCount s < g.maxTotalPositions ∧
       getTotalInvested s + signal.amount ≤ g.maxTotalInvestment ∧
       -r.maxDailyLoss ≤ getDailyPnl s todayTs) := by
  simp only [checkRiskLimits, hbuy, true_and]
  split_ifs with h1 h2 h3 h4
  · simp [h1]
  · constructor
    · intro h
      simp at h
    · rintro ⟨-, hb, -, -⟩
      omega
  · constructor
    · intro h
      simp at h
    · rintro ⟨-, -, hc, -⟩
      linarith
  · constructor
    · intro h
      simp at h
    · rintro ⟨-, -, -, hd⟩
      linarith
  · simp only [true_iff]
    refine ⟨by simpa using h1, by omega, by linarith, by linarith⟩

theorem checkRiskLimits_boundary_witness :
    buyAtCap.type = SignalType.buy ∧
    checkRiskLimits gateGlobal gateRisk gateState 0 buyAtCap = true ∧
    checkRiskLimits gateGlobal gateRisk gateState 0 buyOverCap = false := by
  refine ⟨rfl, ?_, ?_⟩
  · refine (checkRiskLimits_buy_iff gateGlobal gateRisk gateState 0 buyAtCap rfl).mpr ?_
    norm_num [gateGlobal, gateRisk, gateState, buyAtCap, getPositionCount, getTotalInvested,
      getDailyPnl, truthyQ, posM]
  · norm_num [checkRiskLimits, gateGlobal, gateRisk, gateState, buyOverCap, getPositionCount,
      getTotalInvested, getDailyPnl, truthyQ, posM]

theorem gapsWithin_iff (w : ℤ) (l : List BuyEvent) :
    gapsWithin w l = true ↔ List.Chain' (fun a b => b.timestamp - a.timestamp ≤ w) l := by
  induction l with
  | nil => simp [gapsWithin]
  | cons a t ih =>
    cases t with
    | nil => simp [gapsWithin]
    | cons b rest =>
      simp only [gapsWithin, Bool.and_eq_true, decide_eq_true_eq, List.chain'_cons, ih]

/-- C2: the consecutive-buy condition holds exactly when the stored
window has at least `consecutiveBuyCount` entries, every adjacent pair of
the most recent `consecutiveBuyCount` entries is at most
`timeWindowSeconds×1000` ms apart, and those entries' amounts sum to at
least `totalAmountThreshold` (for any positive configured count). -/
theorem checkConsecutiveBuy_iff (cfg : ConsecutiveBuyConfig) (history : List BuyEvent)
    (hcount : 0 < cfg.consecutiveBuyCount) :
    checkConsecutiveBuyCondition cfg (some history) = true ↔
      (cfg.consecutiveBuyCount ≤ history.length ∧
       List.Chain' (fun a b => b.timestamp - a.timestamp ≤ cfg.timeWindowSeconds * 1000)
         (history.drop (history.length - cfg.consecutiveBuyCount)) ∧
       cfg.totalAmountThreshold ≤
         ((history.drop (history.length - cfg.consecutiveBuyCount)).map
             (fun b => b.amount)).sum) := by
  have hne : cfg.consecutiveBuyCount ≠ 0 := hcount.ne'
  simp only [checkConsecutiveBuyCondition, jsSliceLast, if_neg hne]
  by_cases h1 : history.length < cfg.consecutiveBuyCount
  · rw [if_pos h1]
    simp only [Bool.false_eq_true, false_iff]
    rintro ⟨hle, -, -⟩
    omega
  · rw [if_neg h1]
    by_cases h2 : gapsWithin (cfg.timeWindowSeconds * 1000)
        (history.drop (history.length - cfg.consecutiveBuyCount)) = false
    · rw [if_pos h2]
      simp only [Bool.false_eq_true, false_iff]
      rintro ⟨-, hchain, -⟩
      rw [← gapsWithin_iff] at hchain
      rw [h2] at hchain
      exact absurd hchain (by simp)
    · rw [if_neg h2]
      have h2' : gapsWithin (cfg.timeWindowSeconds * 1000)
          (history.drop (history.length - cfg.consecutiveBuyCount)) = true := by
        cases hg : gapsWithin (cfg.timeWindowSeconds * 1000)
            (history.drop (history.length - cfg.consecutiveBuyCount))
        · exact absurd hg h2
        · rfl
      simp only [decide_eq_true_eq]
      constructor
      · intro hsum
        exact ⟨Nat.le_of_not_lt h1, (gapsWithin_iff _ _).mp h2', hsum⟩
      · rintro ⟨-, -, hsum⟩
        exact hsum

theorem checkConsecutiveBuy_gap_witness :
    0 < cfgConsec.consecutiveBuyCount ∧
    checkConsecutiveBuyCondition cfgConsec (some gappedBuys) = false := by
  refine ⟨by norm_num [cfgConsec], ?_⟩
  cases hc : checkConsecutiveBuyCondition cfgConsec (some gappedBuys) with
  | false => rfl
  | true =>
    have h := (checkConsecutiveBuy_iff cfgConsec gappedBuys (by norm_num [cfgConsec])).mp hc
    rcases h with ⟨-, hchain, -⟩
    norm_num [cfgConsec, gappedBuys, List.chain'_cons] at hchain

/-- C10 counterexample: a closed position with `currentValue` present
and equal to `0` while `investedSol` is negative has its current value
present and strictly above `investedSol`, yet `getWinRate` does not count
it (JS `p.currentValue &&` treats `0` as absent), so the claimed
fraction (1) differs from the computed one (0). -/
theorem getWinRate_truthiness_cex :
    zeroValuePos.currentValue.isSome = true ∧
    zeroValuePos.currentValue.getD 0 > zeroValuePos.investedSol ∧
    getWinRate zeroValueState = 0 ∧
    claimWinRate zeroValueState = 1 ∧
    getWinRate zeroValueState ≠ claimWinRate zeroValueState := by
  have hg : getWinRate zeroValueState = 0 := by
    norm_num [getWinRate, zeroValueState, zeroValuePos, posM, truthyQ]
  have hcl : claimWinRate zeroValueState = 1 := by
    norm_num [claimWinRate, zeroValueState, zeroValuePos, posM, List.countP_cons, List.countP_nil]
  refine ⟨rfl, by norm_num [zeroValuePos, posM], hg, hcl, ?_⟩
  rw [hg, hcl]
  norm_num

/-- C10 (amended): with an empty closed-position log both `getWinRate`
and `getAverageHoldTime` return `0`; for a non-empty log `getWinRate` is
the count of closed positions whose `currentValue` is present, nonzero
and strictly greater than `investedSol`, divided by the log length. -/
theorem winRate_and_holdTime_spec (s0 s : PMState)
    (h0 : s0.closedPositions = []) (hne : s.closedPositions ≠ []) :
    getWinRate s0 = 0 ∧ getAverageHoldTime s0 = 0 ∧
    getWinRate s =
      ((s.closedPositions.countP (fun p =>
          p.currentValue.any (fun v => decide (v ≠ 0 ∧ p.investedSol < v)))) : ℚ) /
        (s.closedPositions.length : ℚ) := by
  refine ⟨by simp [getWinRate, h0], by simp [getAverageHoldTime, h0], ?_⟩
  have hlen : s.closedPositions.length ≠ 0 := by
    simpa [List.length_eq_zero] using hne
  rw [getWinRate, if_neg hlen]
  have hfun : ∀ p ∈ s.closedPositions,
      (truthyQ p.currentValue && decide (p.currentValue.getD 0 > p.investedSol)) =
        p.currentValue.any (fun v => decide (v ≠ 0 ∧ p.investedSol < v)) := by
    intro p _
    cases hp : p.currentValue with
    | none => simp [truthyQ]
    | some v =>
      simp only [truthyQ, Option.getD_some, Option.any_some]
      by_cases hv : v = 0
      · subst hv
        simp
      · by_cases hlt : p.investedSol < v
        · simp [hv, hlt]
        · simp [hv, hlt]
  rw [List.countP_eq_length_filter, List.filter_congr hfun]

theorem winRate_spec_witness :
    (({} : PMState)).closedPositions = [] ∧
    mixedClosedState.closedPositions ≠ [] ∧
    getWinRate {} = 0 ∧
    getAverageHoldTime {} = 0 ∧
    getWinRate mixedClosedState = 1 / 2 := by
  have h := winRate_and_holdTime_spec {} mixedClosedState rfl (by simp [mixedClosedState])
  refine ⟨rfl, by simp [mixedClosedState], h.1, h.2.1, ?_⟩
  rw [h.2.2]
  norm_num [mixedClosedState, posM, List.countP_cons, List.countP_nil]

theorem lookup_alistSet_self (k : String) (v : α) (l : List (String × α)) :
    List.lookup k (alistSet k v l) = some v := by
  induction l with
  | nil => simp [alistSet, List.lookup]
  | cons kv rest ih =>
    obtain ⟨k', v'⟩ := kv
    by_cases h : k' = k
    · simp [alistSet, h, List.lookup]
    · simp only [alistSet, if_neg h, List.lookup]
      have : (k == k') = false := by
        simp [Ne.symm h]
      rw [this]
      exact ih

/-- C5 counterexample: open a position (10 tokens at entry price 1,
0.01 SOL invested), record the price `1.1 × entryPrice`, and close with
a trade result whose `executedAmount` is 999.  The close computes
`pnl = (1.1 - 1) × 10 = 1` as claimed, but the PnL derivable from the
position record before close (`11 - 0.01`) differs from the PnL
derivable from the closed-position log entry (`999 - 0.01`), because the
closed entry's `currentValue` is taken from `result.executedAmount`, not
from the recorded price. -/
theorem closePosition_pnl_mismatch_cex :
    List.lookup "M" preCloseState.prices = some (11 / 10) ∧
    (List.lookup "M" preCloseState.positions).map
        (fun p => p.currentValue.getD 0 - p.investedSol) = some (1099 / 100) ∧
    (closePosition preCloseState "M" resultOff 200).toOption.map (fun r => r.2) = some 1 ∧
    (closePosition preCloseState "M" resultOff 200).toOption.map
        (fun r => r.1.closedPositions.map (fun q => q.currentValue.getD 0 - q.investedSol)) =
      some [99899 / 100] ∧
    (1099 / 100 : ℚ) ≠ 99899 / 100 := by
  refine ⟨?_, ?_, ?_, ?_, by norm_num⟩
  · norm_num [preCloseState, updatePrice, openPosition, posM, alistSet, List.lookup]
  · norm_num [preCloseState, updatePrice, openPosition, posM, alistSet, List.lookup]
  · norm_num [preCloseState, updatePrice, openPosition, closePosition, posM, resultOff,
      alistSet, alistErase, List.lookup, Except.toOption]
  · norm_num [preCloseState, updatePrice, openPosition, closePosition, posM, resultOff,
      alistSet, alistErase, List.lookup, Except.toOption]

/-- C5 (amended): closing at a recorded price of `1.1 × entryPrice`
computes `pnl = (1.1P − P) × amount`, and the pre-close PnL derived from
the position record equals the post-close PnL derived from the
closed-position log entry whenever the trade result's `executedAmount`
equals the marked-to-market value `amount × 1.1P` (the closed entry's
`currentValue` is copied from the trade result). -/
theorem closePosition_pnl_roundTrip (mint : String) (P amount invested : ℚ)
    (result : TradeResult) (t0 t1 t2 : ℤ) (s0 : PMState)
    (hexec : result.executedAmount = some (amount * (11 / 10 * P))) :
    ∃ p s2 pnl,
      List.lookup mint
          (updatePrice (openPosition s0
            { mint := mint, amount := amount, entryPrice := P, entryTime := t0,
              entryTxSignature := "", status := .active, strategy := "ConsecutiveBuy",
              investedSol := invested, lastUpdate := t0 }) mint (11 / 10 * P) t1).positions =
        some p ∧
      closePosition
          (updatePrice (openPosition s0
            { mint := mint, amount := amount, entryPrice := P, entryTime := t0,
              entryTxSignature := "", status := .active, strategy := "ConsecutiveBuy",
              investedSol := invested, lastUpdate := t0 }) mint (11 / 10 * P) t1)
          mint result t2 = .ok (s2, pnl) ∧
      pnl = (11 / 10 * P - P) * amount ∧
      ∃ q, s2.closedPositions.getLast? = some q ∧
        q.currentValue.getD 0 - q.investedSol = p.currentValue.getD 0 - p.investedSol := by
  simp only [openPosition, updatePrice, lookup_alistSet_self]
  simp only [closePosition, lookup_alistSet_self, Option.getD_some]
  refine ⟨_, _, _, rfl, rfl, by ring, ?_⟩
  refine ⟨_, List.getLast?_concat _, ?_⟩
  simp [hexec]

theorem closePosition_pnl_roundTrip_witness :
    ({ success := true, executedAmount := some 11, executedAt := 200 } :
        TradeResult).executedAmount = some ((10 : ℚ) * (11 / 10 * 1)) ∧
    ∃ p s2 pnl,
      List.lookup "M"
          (updatePrice (openPosition {}
            { mint := "M", amount := 10, entryPrice := 1, entryTime := 0,
              entryTxSignature := "", status := .active, strategy := "ConsecutiveBuy",
              investedSol := 1 / 100, lastUpdate := 0 }) "M" (11 / 10 * 1) 100).positions =
        some p ∧
      closePosition
          (updatePrice (openPosition {}
            { mint := "M", amount := 10, entryPrice := 1, entryTime := 0,
              entryTxSignature := "", status := .active, strategy := "ConsecutiveBuy",
              investedSol := 1 / 100, lastUpdate := 0 }) "M" (11 / 10 * 1) 100)
          "M" { success := true, executedAmount := some 11, executedAt := 200 } 200 =
        .ok (s2, pnl) ∧
      pnl = (11 / 10 * 1 - 1) * 10 ∧
      ∃ q, s2.closedPositions.getLast? = some q ∧
        q.currentValue.getD 0 - q.investedSol = p.currentValue.getD 0 - p.investedSol := by
  refine ⟨by norm_num, ?_⟩
  exact closePosition_pnl_roundTrip "M" 1 10 (1 / 100)
    { success := true, executedAmount := some 11, executedAt := 200 } 0 100 200 {}
    (by norm_num)

theorem convertElems_eq (elems : List Json) (path : String) (idx : ℕ) :
    convertElems elems path idx =
      elems.mapIdx (fun i x => convertArraysInObject x (childIndexPath path (idx + i))) := by
  induction elems generalizing idx with
  | nil => simp [convertElems]
  | cons x xs ih =>
    have harith : ∀ i : ℕ, idx + 1 + i = idx + (i + 1) := by omega
    simp [convertElems, List.mapIdx_cons, ih (idx + 1), harith]

theorem convertFields_eq (fields : List (String × Json)) (path : String) :
    convertFields fields path =
      fields.map (fun kv => (kv.1, convertArraysInObject kv.2 (childFieldPath path kv.1))) := by
  induction fields with
  | nil => simp [convertFields]
  | cons kv rest ih => simp [convertFields, ih]

/-- C9: the recursive normalizer maps every 32-element array of
byte-range integers to the base-58 public-key string, every 64-element
array of byte-range integers whose path ends in `signature` to the
base-58 signature string, and passes everything else through with its
structure intact: non-matching arrays recurse element-wise with indexed
child paths, objects keep their keys and recurse field-wise with dotted
child paths, and scalars are returned unchanged. -/
theorem convertArrays_spec (path : String) :
    (∀ elems : List Json, elems.length = 32 → isUint8ArrayB elems = true →
       convertArraysInObject (.arr elems) path = .str (pubkeyArrayToString (jsonInts elems))) ∧
    (∀ elems : List Json, elems.length = 64 → isUint8ArrayB elems = true →
       isSignaturePath path = true →
       convertArraysInObject (.arr elems) path =
         .str (signatureArrayToString (jsonInts elems))) ∧
    (∀ elems : List Json,
       ¬(elems.length = 32 ∧ isUint8ArrayB elems = true) →
       ¬(elems.length = 64 ∧ isUint8ArrayB elems = true ∧ isSignaturePath path = true) →
       convertArraysInObject (.arr elems) path =
         .arr (elems.mapIdx (fun idx x => convertArraysInObject x (childIndexPath path idx)))) ∧
    (∀ fields : List (String × Json),
       convertArraysInObject (.obj fields) path =
         .obj (fields.map
           (fun kv => (kv.1, convertArraysInObject kv.2 (childFieldPath path kv.1))))) ∧
    (∀ n : ℤ, convertArraysInObject (.num n) path = .num n) ∧
    (∀ s : String, convertArraysInObject (.str s) path = .str s) ∧
    (∀ b : Bool, convertArraysInObject (.bool b) path = .bool b) ∧
    convertArraysInObject .null path = .null := by
  refine ⟨?_, ?_, ?_, ?_, ?_, ?_, ?_, ?_⟩
  · intro elems h32 hbytes
    rw [convertArraysInObject, if_pos ⟨h32, hbytes⟩]
  · intro elems h64 hbytes hsig
    have hnot32 : ¬(elems.length = 32 ∧ isUint8ArrayB elems = true) := by
      rintro ⟨h, -⟩
      omega
    rw [convertArraysInObject, if_neg hnot32, if_pos ⟨h64, hbytes, hsig⟩]
  · intro elems h1 h2
    rw [convertArraysInObject, if_neg h1, if_neg h2, convertElems_eq]
    simp
  · intro fields
    rw [convertArraysInObject, convertFields_eq]
  · intro n
    rw [convertArraysInObject] <;> simp
  · intro s
    rw [convertArraysInObject] <;> simp
  · intro b
    rw [convertArraysInObject] <;> simp
  · rw [convertArraysInObject] <;> simp

theorem convertArrays_spec_witness :
    (List.replicate 32 (Json.num 0)).length = 32 ∧
    isUint8ArrayB (List.replicate 32 (Json.num 0)) = true ∧
    convertArraysInObject (Json.arr (List.replicate 32 (Json.num 0))) "" =
      Json.str "11111111111111111111111111111111" := by
  refine ⟨rfl, by decide, ?_⟩
  have h := (convertArrays_spec "").1 (List.replicate 32 (Json.num 0)) rfl (by decide)
  rw [h]
  congr 1

theorem setAdd_contains_of (s : List String) (k m : String) (h : s.contains m = true) :
    (setAdd s k).contains m = true := by
  unfold setAdd
  split
  · exact h
  · rw [List.elem_iff] at *
    exact List.mem_append_left _ h

theorem setErase_contains_of (s : List String) (k m : String) (hne : m ≠ k)
    (h : s.contains m = true) : (setErase s k).contains m = true := by
  unfold setErase
  rw [List.elem_iff] at *
  simp [List.mem_filter, h, hne]

theorem recordBuyEvent_boughtTokens (cfg : ConsecutiveBuyConfig) (st : ConsecutiveBuyState)
    (b : BuyEvent) (now : ℤ) : (recordBuyEvent cfg st b now).boughtTokens = st.boughtTokens := by
  unfold recordBuyEvent
  dsimp only
  split <;> rfl

theorem analyzeEvent_marked (cfg : ConsecutiveBuyConfig) (env : StrategyEnv)
    (st : ConsecutiveBuyState) (event : DexEvent) (mint : String)
    (hmark : st.boughtTokens.contains mint = true) :
    (analyzeEvent cfg env st event).2.boughtTokens.contains mint = true ∧
    ∀ sig ∈ (analyzeEvent cfg env st event).1,
      ¬(sig.type = SignalType.buy ∧ sig.mint = mint) := by
  unfold analyzeEvent
  cases hx : extractBuyEvent event env.now with
  | none => exact ⟨hmark, by simp⟩
  | some b =>
    dsimp only
    have hb1 : (recordBuyEvent cfg st b env.now).boughtTokens = st.boughtTokens :=
      recordBuyEvent_boughtTokens cfg st b env.now
    by_cases hc : checkConsecutiveBuyCondition cfg
        (List.lookup b.mint (recordBuyEvent cfg st b env.now).buyHistory) = true
    · rw [if_pos hc]
      by_cases hg : (recordBuyEvent cfg st b env.now).boughtTokens.contains b.mint = false ∧
          env.hasPosition b.mint = false
      · rw [if_pos hg]
        refine ⟨setAdd_contains_of _ _ _ (hb1 ▸ hmark), ?_⟩
        intro sig hsig
        rw [List.mem_singleton] at hsig
        subst hsig
        rintro ⟨-, hmint⟩
        dsimp only at hmint
        have hcontains : (recordBuyEvent cfg st b env.now).boughtTokens.contains b.mint = true := by
          rw [hmint, hb1]
          exact hmark
        rw [hg.1] at hcontains
        exact absurd hcontains (by simp)
      · rw [if_neg hg]
        exact ⟨hb1 ▸ hmark, by simp⟩
    · rw [if_neg hc]
      exact ⟨hb1 ▸ hmark, by simp⟩

theorem baseCheckExit_sell (config : StrategyConfig) (currentPrice : Option ℚ) (now : ℤ)
    (position : Position) (sig : TradeSignal)
    (h : baseCheckExitConditions config currentPrice now position = some sig) :
    sig.type = SignalType.sell := by
  unfold baseCheckExitConditions at h
  dsimp only at h
  by_cases h1 : truthyQ currentPrice = false
  · rw [if_pos h1] at h
    exact absurd h (by simp)
  · rw [if_neg h1] at h
    by_cases h2 : truthyQ config.takeProfitRatio = true ∧
        (currentPrice.getD 0 - position.entryPrice) / position.entryPrice ≥
          config.takeProfitRatio.getD 0
    · rw [if_pos h2] at h
      simp only [Option.some.injEq] at h
      rw [← h]
    · rw [if_neg h2] at h
      by_cases h3 : truthyQ config.stopLossRatio = true ∧
          (currentPrice.getD 0 - position.entryPrice) / position.entryPrice ≤
            config.stopLossRatio.getD 0
      · rw [if_pos h3] at h
        simp only [Option.some.injEq] at h
        rw [← h]
      · rw [if_neg h3] at h
        split_ifs at h

theorem stratCheckExit_fst (cfg : ConsecutiveBuyConfig) (env : StrategyEnv)
    (st : ConsecutiveBuyState) (position : Position) :
    (stratCheckExitConditions cfg env st position).1 = stratExitSignal cfg env position := by
  unfold stratExitSignal stratCheckExitConditions
  dsimp only
  by_cases h1 : truthyQ (env.getPrice position.mint) = false
  · rw [if_pos h1, if_pos h1]
  · rw [if_neg h1, if_neg h1]
    by_cases h2 : ((env.getPrice position.mint).getD 0 - position.entryPrice) /
        position.entryPrice ≥ cfg.targetProfitRatio
    · rw [if_pos h2, if_pos h2]
    · rw [if_neg h2, if_neg h2]
      cases hb : baseCheckExitConditions cfg.toStrategyConfig
          (env.getPrice position.mint) env.now position with
      | none => rfl
      | some s => rfl

theorem stratCheckExit_none (cfg : ConsecutiveBuyConfig) (env : StrategyEnv)
    (st : ConsecutiveBuyState) (position : Position)
    (h : stratExitSignal cfg env position = none) :
    stratCheckExitConditions cfg env st position = (none, st) := by
  unfold stratExitSignal stratCheckExitConditions at *
  dsimp only at h ⊢
  by_cases h1 : truthyQ (env.getPrice position.mint) = false
  · rw [if_pos h1]
  · rw [if_neg h1] at h ⊢
    by_cases h2 : ((env.getPrice position.mint).getD 0 - position.entryPrice) /
        position.entryPrice ≥ cfg.targetProfitRatio
    · rw [if_pos h2] at h
      exact absurd h (by simp)
    · rw [if_neg h2] at h ⊢
      cases hb : baseCheckExitConditions cfg.toStrategyConfig
          (env.getPrice position.mint) env.now position with
      | none => rfl
      | some s =>
        rw [hb] at h
        exact absurd h (by simp)

theorem stratCheckExit_sell (cfg : ConsecutiveBuyConfig) (env : StrategyEnv)
    (st : ConsecutiveBuyState) (position : Position) (sig : TradeSignal)
    (h : (stratCheckExitConditions cfg env st position).1 = some sig) :
    sig.type = SignalType.sell := by
  unfold stratCheckExitConditions at h
  dsimp only at h
  by_cases h1 : truthyQ (env.getPrice position.mint) = false
  · rw [if_pos h1] at h
    exact absurd h (by simp)
  · rw [if_neg h1] at h
    by_cases h2 : ((env.getPrice position.mint).getD 0 - position.entryPrice) /
        position.entryPrice ≥ cfg.targetProfitRatio
    · rw [if_pos h2] at h
      simp only [Option.some.injEq] at h
      rw [← h]
    · rw [if_neg h2] at h
      cases hb : baseCheckExitConditions cfg.toStrategyConfig
          (env.getPrice position.mint) env.now position with
      | none =>
        rw [hb] at h
        exact absurd h (by simp)
      | some s =>
        rw [hb] at h
        simp only [Option.some.injEq] at h
        rw [← h]
        exact baseCheckExit_sell _ _ _ _ _ hb

theorem stratCheckExit_state (cfg : ConsecutiveBuyConfig) (env : StrategyEnv)
    (st : ConsecutiveBuyState) (position : Position) :
    (stratCheckExitConditions cfg env st position).2 = st ∨
    (stratCheckExitConditions cfg env st position).2 =
      { st with boughtTokens := setErase st.boughtTokens position.mint } := by
  unfold stratCheckExitConditions
  dsimp only
  by_cases h1 : truthyQ (env.getPrice position.mint) = false
  · rw [if_pos h1]
    exact Or.inl rfl
  · rw [if_neg h1]
    by_cases h2 : ((env.getPrice position.mint).getD 0 - position.entryPrice) /
        position.entryPrice ≥ cfg.targetProfitRatio
    · rw [if_pos h2]
      exact Or.inr rfl
    · rw [if_neg h2]
      cases hb : baseCheckExitConditions cfg.toStrategyConfig
          (env.getPrice position.mint) env.now position with
      | none => exact Or.inl rfl
      | some s => exact Or.inr rfl

theorem cleanup_contains (cfg : ConsecutiveBuyConfig) (env : StrategyEnv)
    (st : ConsecutiveBuyState) (mint : String) (hpos : env.hasPosition mint = true)
    (hmark : st.boughtTokens.contains mint = true) :
    (cleanup cfg env st).boughtTokens.contains mint = true := by
  unfold cleanup
  generalize st.buyHistory = entries
  induction entries generalizing st with
  | nil => exact hmark
  | cons e rest ih =>
    rw [List.foldl_cons]
    apply ih
    by_cases hf : (e.2.filter
        (fun x => decide (x.timestamp > env.now - cfg.timeWindowSeconds * 1000))).isEmpty = true
    · rw [if_pos hf]
      by_cases hp : env.hasPosition e.1 = true
      · rw [if_pos hp]
        exact hmark
      · rw [if_neg hp]
        have hne : mint ≠ e.1 := by
          intro hcontra
          rw [← hcontra] at hp
          exact hp hpos
        exact setErase_contains_of _ _ _ hne hmark
    · rw [if_neg hf]
      exact hmark

/-- C3: starting from any state whose bought-mark contains `mint`, along
any operation sequence in which the position for `mint` stays open, no
exit-check decides to sell `mint`, and the strategy is not torn down, the
strategy emits no buy signal for `mint` and the bought-mark for `mint`
is still set at the end. -/
theorem no_second_buy_while_marked (cfg : ConsecutiveBuyConfig) (mint : String)
    (st0 : ConsecutiveBuyState) (ops : List StrategyOp)
    (hmark : st0.boughtTokens.contains mint = true)
    (hopen : ∀ op ∈ ops, opOpenFor mint op)
    (hnoexit : ∀ op ∈ ops, opNoExitFor cfg mint op) :
    (runStrategy cfg st0 ops).1.boughtTokens.contains mint = true ∧
    ∀ sig ∈ (runStrategy cfg st0 ops).2,
      ¬(sig.type = SignalType.buy ∧ sig.mint = mint) := by
  induction ops generalizing st0 with
  | nil => exact ⟨hmark, by simp [runStrategy]⟩
  | cons op rest ih =>
    have hop := hopen op (List.mem_cons_self _ _)
    have hnop := hnoexit op (List.mem_cons_self _ _)
    have hstep : (applyOp cfg st0 op).2.boughtTokens.contains mint = true ∧
        ∀ sig ∈ (applyOp cfg st0 op).1, ¬(sig.type = SignalType.buy ∧ sig.mint = mint) := by
      cases op with
      | analyze env event => exact analyzeEvent_marked cfg env st0 event mint hmark
      | checkExit env position =>
        by_cases hm : position.mint = mint
        · have hsig : stratExitSignal cfg env position = none := hnop hm
          have hres := stratCheckExit_none cfg env st0 position hsig
          refine ⟨?_, ?_⟩
          · simp only [applyOp, hres]
            exact hmark
          · simp [applyOp, hres]
        · refine ⟨?_, ?_⟩
          · rcases stratCheckExit_state cfg env st0 position with h | h
            · simp only [applyOp, h]
              exact hmark
            · simp only [applyOp, h]
              exact setErase_contains_of _ _ _ (fun hc => hm hc.symm) hmark
          · intro sig hsig
            rintro ⟨hbuy, -⟩
            simp only [applyOp, Option.mem_toList, Option.mem_def] at hsig
            have hsell := stratCheckExit_sell cfg env st0 position sig hsig
            rw [hbuy] at hsell
            exact absurd hsell (by simp)
      | doCleanup env =>
        exact ⟨cleanup_contains cfg env st0 mint hop hmark, by simp [applyOp]⟩
      | destroy => exact absurd hop (by simp [opOpenFor])
    have hrest := ih (applyOp cfg st0 op).2 hstep.1
      (fun o ho => hopen o (List.mem_cons_of_mem _ ho))
      (fun o ho => hnoexit o (List.mem_cons_of_mem _ ho))
    refine ⟨?_, ?_⟩
    · simp only [runStrategy]
      exact hrest.1
    · intro sig hsig
      simp only [runStrategy, List.mem_append] at hsig
      rcases hsig with h | h
      · exact hstep.2 sig h
      · exact hrest.2 sig h

theorem no_second_buy_witness :
    markedState.boughtTokens.contains "M" = true ∧
    (∀ op ∈ opsAnalyzeM, opOpenFor "M" op) ∧
    (runStrategy cfgConsec markedState opsAnalyzeM).1.boughtTokens.contains "M" = true ∧
    ∀ sig ∈ (runStrategy cfgConsec markedState opsAnalyzeM).2,
      ¬(sig.type = SignalType.buy ∧ sig.mint = "M") := by
  have hopen : ∀ op ∈ opsAnalyzeM, opOpenFor "M" op := by
    intro op hop
    rw [opsAnalyzeM, List.mem_singleton] at hop
    subst hop
    rfl
  have hnoexit : ∀ op ∈ opsAnalyzeM, opNoExitFor cfgConsec "M" op := by
    intro op hop
    rw [opsAnalyzeM, List.mem_singleton] at hop
    subst hop
    trivial
  have h := no_second_buy_while_marked cfgConsec "M" markedState opsAnalyzeM
    (by decide) hopen hnoexit
  exact ⟨by decide, hopen, h.1, h.2⟩

end Bot
